import Mathlib

/-!
Shallow embedding of the draft-generation engine of this repository
(`src/draft_emails.py`, with record types from `src/models.py`).

Strings are modelled as `List Char`.  Python string methods used by the
source (`strip`, `rstrip`, `lower`, `splitlines`, `replace`, slicing,
`join`) are modelled by executable Lean functions below.  CSV rows /
dicts are modelled as association lists (`Dict`).  External effects
(the template directory, the OpenAI calls, `json.loads`) are
parameters of the respective functions: an `Option`/oracle argument
stands for the outcome of the external call, `none` standing for a
raised exception.
-/

set_option maxHeartbeats 2000000

abbrev Str := List Char

/-- Literal character for a left curly brace (written by code point). -/
def lbrace : Char := Char.ofNat 123

/-- Literal character for a right curly brace (written by code point). -/
def rbrace : Char := Char.ofNat 125

/-- Python whitespace class used by `str.strip`, `str.rstrip` and the regex
class in the source (ASCII part: space, tab, newline, carriage return,
vertical tab, form feed). -/
def pyIsSpace (c : Char) : Bool :=
  c = ' ' || c = '\t' || c = '\n' || c = '\x0d' || c = '\x0b' || c = '\x0c'

/-- Python `s.lstrip()`. -/
def pyLstrip (s : Str) : Str := s.dropWhile pyIsSpace

/-- Python `s.rstrip()`. -/
def pyRstrip (s : Str) : Str := (s.reverse.dropWhile pyIsSpace).reverse

/-- Python `s.strip()`. -/
def pyStrip (s : Str) : Str := pyRstrip (pyLstrip s)

/-- Python `s.lower()` (character-wise, ASCII letters). -/
def pyLower (s : Str) : Str := s.map Char.toLower

/-- Python `sep.join(parts)`. -/
def joinSep (sep : Str) : List Str → Str
  | [] => []
  | [l] => l
  | l :: ls => l ++ sep ++ joinSep sep ls

/-- Python `"\n".join(parts)`. -/
def joinNL (ls : List Str) : Str := joinSep ['\n'] ls

/-- Python line-break characters recognized by `str.splitlines`. -/
def isLineBreak (c : Char) : Bool :=
  c = '\n' || c = '\r' || c = '\x0b' || c = '\x0c' ||
  c = '\x1c' || c = '\x1d' || c = '\x1e' || c = '\x85' ||
  c = '\u2028' || c = '\u2029'

/-- Python `s.splitlines()`: terminators are dropped, `"\r\n"` counts as one
terminator, a terminal line break produces no trailing empty line, the empty
string yields no lines. -/
def pySplitlines : Str → List Str
  | [] => []
  | c :: rest =>
    if c = '\r' then
      match rest with
      | [] => [[]]
      | c2 :: rest2 =>
        if c2 = '\n' then [] :: pySplitlines rest2
        else [] :: pySplitlines (c2 :: rest2)
    else if isLineBreak c then
      [] :: pySplitlines rest
    else
      match pySplitlines rest with
      | [] => [[c]]
      | l :: ls => (c :: l) :: ls

/-- Rows and parsed JSON objects: Python string-valued dicts, modelled as
association lists in insertion order. -/
abbrev Dict := List (Str × Str)

/-- Python `d.get(k)` (`none` = key absent). -/
def dget (d : Dict) (k : Str) : Option Str :=
  match d with
  | [] => none
  | (k', v) :: rest => if k' = k then some v else dget rest k

/-- Python `x or y` where `x` is an optional string: the empty string and a
missing value are both falsy. -/
def truthyOr (a : Option Str) (b : Str) : Str :=
  match a with
  | none => b
  | some v => if v = [] then b else v

/-- Python `d.get(k) or ""`. -/
def dgetS (d : Dict) (k : Str) : Str := truthyOr (dget d k) []

/-- Python dict update `{**d, k: v}`: replaces the value in place when the key
exists, appends otherwise. -/
def dset (d : Dict) (k : Str) (v : Str) : Dict :=
  match d with
  | [] => [(k, v)]
  | (k', w) :: rest => if k' = k then (k', v) :: rest else (k', w) :: dset rest k v

/-- Fuel-indexed worker for Python `s.replace(pat, val)` (leftmost,
non-overlapping, single pass); the fuel is the length of the scanned text,
which suffices because each step consumes at least one character. -/
def replaceAllF : Nat → Str → Str → Str → Str
  | 0, _, _, s => s
  | _ + 1, _, _, [] => []
  | f + 1, pat, val, c :: rest =>
    if pat ≠ [] ∧ pat.isPrefixOf (c :: rest) then
      val ++ replaceAllF f pat val (rest.drop (pat.length - 1))
    else
      c :: replaceAllF f pat val rest

/-- Python `s.replace(pat, val)` for a nonempty pattern (all patterns in the
source are concrete nonempty literals). -/
def replaceAll (pat val s : Str) : Str := replaceAllF s.length pat val s

/-- Does `pat` occur as a contiguous substring of `s`?  (Python `pat in s`.) -/
def containsSub (pat : Str) : Str → Bool
  | [] => pat.isEmpty
  | c :: rest => pat.isPrefixOf (c :: rest) || containsSub pat rest

/-- The ten recognized placeholder tokens of `fill_template`
(`src/draft_emails.py` lines 77-88). -/
inductive Tok where
  | companyName
  | companyDescription
  | jobsUrl
  | location
  | candidateName
  | candidateHeadline
  | coreSkills
  | quantProjects
  | metrics
  | customReference
  deriving DecidableEq

/-- Inner name of each placeholder token. -/
def tokName : Tok → Str
  | .companyName => ("company_name").toList
  | .companyDescription => ("company_description").toList
  | .jobsUrl => ("jobs_url").toList
  | .location => ("location").toList
  | .candidateName => ("candidate_name").toList
  | .candidateHeadline => ("candidate_headline").toList
  | .coreSkills => ("candidate_core_skills").toList
  | .quantProjects => ("candidate_quant_projects").toList
  | .metrics => ("candidate_metrics").toList
  | .customReference => ("custom_reference").toList

/-- Literal placeholder marker, e.g. the twice-braced `company_name`. -/
def tokStr (t : Tok) : Str := lbrace :: lbrace :: (tokName t ++ [rbrace, rbrace])

/-- Substitution order: insertion order of the `replacements` dict in
`fill_template` (Python dicts iterate in insertion order). -/
def tokOrder : List Tok :=
  [.companyName, .companyDescription, .jobsUrl, .location, .candidateName,
   .candidateHeadline, .coreSkills, .quantProjects, .metrics, .customReference]

/-- CandidateProfile from `src/models.py` (all fields default to empty). -/
structure CandidateProfile where
  name : Str := []
  headline : Str := []
  core_skills : List Str := []
  technical_skills : List Str := []
  experience_highlights : List Str := []
  quant_projects : List Str := []
  metrics : List Str := []
  education : Str := []
  links : List Str := []

/-- CompanyDraft from `src/models.py`. -/
structure CompanyDraft where
  tier : Str := []
  subject : Str := []
  body : Str := []

/-- Value substituted for each token in `fill_template` (lines 64-87).  The
`score` argument models `score.get("solid_reasons")` after the `isinstance`
test: `some rs` when the key holds a Python list, `none` otherwise. -/
def tokValue (company : Dict) (profile : CandidateProfile)
    (score : Option (List Str)) : Tok → Str
  | .companyName => pyStrip (dgetS company (("company_name").toList))
  | .companyDescription =>
      pyStrip (truthyOr (dget company (("short_description").toList))
        (truthyOr (dget company (("company_description").toList)) []))
  | .jobsUrl => pyStrip (dgetS company (("jobs_url").toList))
  | .location => pyStrip (dgetS company (("location").toList))
  | .candidateName => pyStrip profile.name
  | .candidateHeadline => pyStrip profile.headline
  | .coreSkills =>
      if profile.core_skills = [] then [] else joinSep ((", ").toList) profile.core_skills
  | .quantProjects => joinSep ((", ").toList) (profile.quant_projects.take 2)
  | .metrics => joinSep ((", ").toList) (profile.metrics.take 2)
  | .customReference =>
      pyStrip (match score with
        | some (r :: _) => r
        | _ => [])

/-- The ten placeholder substitutions of `fill_template` lines 89-91,
performed by `str.replace` one token after the other in dict order. -/
def seqReplace (vals : Tok → Str) (s : Str) : Str :=
  tokOrder.foldl (fun acc t => replaceAll (tokStr t) (vals t) acc) s

/-- Maximum length of a filled template (`MAX_FILLED_LENGTH`, line 31). -/
def MAX_FILLED_LENGTH : Nat := 2000

/-- Whitespace normalization of `fill_template` lines 93-103: right-trim each
line, drop a blank line that directly follows a blank line, join with
newlines, trim the whole. -/
def dedupeBlanks (prevBlank : Bool) : List Str → List Str
  | [] => []
  | l :: rest =>
    let isBlank := (pyStrip l).isEmpty
    if isBlank && prevBlank then dedupeBlanks prevBlank rest
    else l :: dedupeBlanks isBlank rest

/-- Normalization pass of `fill_template` (lines 93-103), before truncation. -/
def cleanFilled (s : Str) : Str :=
  pyStrip (joinNL (dedupeBlanks false ((pySplitlines s).map pyRstrip)))

/-- Length truncation of `fill_template` (lines 104-105): silent, right-trimmed,
only when the text exceeds `MAX_FILLED_LENGTH`. -/
def truncateMax (s : Str) : Str :=
  if MAX_FILLED_LENGTH < s.length then pyRstrip (s.take MAX_FILLED_LENGTH) else s

/-- Embedding of `fill_template` (`src/draft_emails.py` lines 57-106). -/
def fill_template (template : Str) (company : Dict) (profile : CandidateProfile)
    (score : Option (List Str)) : Str :=
  truncateMax (cleanFilled (seqReplace (tokValue company profile score) template))

/-- Lowercase literal `"subject:"` marker (line 114). -/
def subjectMarker : Str := ("subject:").toList

/-- Test of line 114: the trimmed, lowercased line starts with the marker. -/
def isSubjectLine (l : Str) : Bool := subjectMarker.isPrefixOf (pyLower (pyStrip l))

/-- Scanning loop of `_extract_subject_from_body` (lines 112-118). -/
def extractAux (text : Str) : List Str → Str × Str
  | [] => ([], text)
  | l :: rest =>
    if isSubjectLine l then
      (pyStrip ((pyStrip l).drop 8), pyStrip (joinNL rest))
    else extractAux text rest

/-- Embedding of `_extract_subject_from_body` (lines 109-118). -/
def _extract_subject_from_body (text : Str) : Str × Str :=
  extractAux text (pySplitlines text)

/-- Triple-backtick fence marker. -/
def fenceMarker : Str := ("```").toList

/-- Effect of `re.sub(r"^```(?:json)?\s*", "", s)` (line 180): remove a leading
fence, an optional `json` tag, and the following whitespace run. -/
def stripFencePrefixSub (s : Str) : Str :=
  if fenceMarker.isPrefixOf s then
    let r := s.drop 3
    let r2 := if (("json").toList).isPrefixOf r then r.drop 4 else r
    r2.dropWhile pyIsSpace
  else s

/-- Effect of `re.sub(r"\s*```\s*$", "", s)` (line 181): when the text after
right-trimming ends in a fence, remove the fence and the whitespace run before
it; otherwise leave the text unchanged. -/
def stripFenceSuffixSub (s : Str) : Str :=
  let r := pyRstrip s
  if fenceMarker.isSuffixOf r then pyRstrip (r.take (r.length - 3)) else s

/-- Embedding of `_strip_json_block` (lines 176-182). -/
def _strip_json_block (content : Str) : Str :=
  let c := pyStrip content
  let c2 :=
    if fenceMarker.isPrefixOf c then stripFenceSuffixSub (stripFencePrefixSub c)
    else c
  pyStrip c2

/-- Outcome of the refinement API call in `_gpt_refine_body`: `raised` stands
for any exception inside the `try` block, `respond c` for a returned message
whose content is `c` (the empty list also models a missing/None content,
since both are falsy at line 144). -/
inductive RefineOutcome where
  | raised
  | respond (content : Str)

/-- Embedding of `_gpt_refine_body` (lines 121-150).  The float comparison
`len(refined) <= len(body) * 1.1` is modelled exactly at the rational level as
`10 * len(refined) <= 11 * len(body)`. -/
def _gpt_refine_body (apiKey : Option Str) (outcome : RefineOutcome) (body : Str) : Str :=
  match apiKey with
  | none => body
  | some key =>
    if key = [] ∨ pyStrip key = [] then body
    else
      match outcome with
      | .raised => body
      | .respond c =>
        if c = [] then body
        else
          let refined := pyStrip c
          if 10 * refined.length ≤ 11 * body.length then refined.take MAX_FILLED_LENGTH
          else body

/-- Characters kept by `re.sub(r"[^a-z0-9_]", "", ...)` in `load_template`. -/
def isTierChar (c : Char) : Bool :=
  ('a' ≤ c && c ≤ 'z') || ('0' ≤ c && c ≤ '9') || c = '_'

/-- Tier sanitization of `load_template` (lines 45-47): blank tiers default to
`"standard"`, then the tier is stripped, lowercased and restricted to
`[a-z0-9_]`, defaulting to `"standard"` again when nothing is left. -/
def sanitizeTierKey (tier : Str) : Str :=
  let t := if tier = [] ∨ pyStrip tier = [] then ("standard").toList else tier
  let u := (pyLower (pyStrip t)).filter isTierChar
  if u = [] then ("standard").toList else u

/-- Embedding of `load_template` (lines 43-54).  The template directory is a
parameter `store` from sanitized tier keys to file contents; `none` models a
missing or unreadable file, which the source turns into the empty string. -/
def load_template (store : Str → Option Str) (tier : Str) : Str :=
  (store (sanitizeTierKey tier)).getD []

/-- Tier resolution of `main` (line 273):
`(row.get("tier") or "standard").strip() or "standard"`. -/
def resolveTier (row : Dict) : Str :=
  let b := pyStrip (truthyOr (dget row (("tier").toList)) (("standard").toList))
  if b = [] then ("standard").toList else b

/-- The three mojibake characters (U+00E2, U+20AC, U+201C) appearing literally
in the fallback-subject f-string at line 283 of the source. -/
def mojibakeDash : Str := [Char.ofNat 226, Char.ofNat 8364, Char.ofNat 8220]

/-- Fallback subject of `main` (line 283):
`f"{profile.name or 'Candidate'} .. interested in {row.get('company_name', 'Company')}"`. -/
def fallbackSubject (profile : CandidateProfile) (row : Dict) : Str :=
  (if profile.name = [] then ("Candidate").toList else profile.name)
    ++ (" ").toList ++ mojibakeDash ++ (" interested in ").toList
    ++ (dget row (("company_name").toList)).getD (("Company").toList)

/-- Feature flag `USE_GPT_REFINEMENT` (line 22): disabled. -/
def USE_GPT_REFINEMENT : Bool := false

/-- Template-mode branch of the per-company loop in `main` (lines 277-286).
The score dict built at line 279 always carries an empty list, because CSV
rows are string-valued and the `isinstance(..., list)` test fails. -/
def templateDraft (tier ttext : Str) (row : Dict) (profile : CandidateProfile)
    (apiKey : Option Str) (refineOutcome : RefineOutcome) : CompanyDraft :=
  let filled := fill_template ttext row profile (some [])
  let sb := _extract_subject_from_body filled
  let subject := if sb.1 = [] then fallbackSubject profile row else sb.1
  let body := if USE_GPT_REFINEMENT then _gpt_refine_body apiKey refineOutcome sb.2 else sb.2
  { tier := tier, subject := subject, body := body }

/-- One labelled part of `_format_company_info` (lines 156-165). -/
def infoPart (row : Dict) (k : Str) (label : Str) : List Str :=
  if dgetS row k = [] then [] else [label ++ dgetS row k]

/-- Embedding of `_format_company_info` (lines 153-166). -/
def _format_company_info (row : Dict) : Str :=
  let parts :=
    infoPart row (("company_name").toList) (("Name: ").toList)
    ++ infoPart row (("yc_batch").toList) (("Batch: ").toList)
    ++ infoPart row (("location").toList) (("Location: ").toList)
    ++ infoPart row (("short_description").toList) (("About: ").toList)
    ++ infoPart row (("website_url").toList) (("Website: ").toList)
  if parts = [] then ("No company details.").toList else joinNL parts

/-- Single-braced prompt substitution point (lines 212-214). -/
def promptSlot (name : Str) : Str := lbrace :: (name ++ [rbrace])

/-- Prompt construction of `_draft_for_company` (lines 211-215). -/
def buildPrompt (tmpl compact highlights : Str) (row : Dict) : Str :=
  replaceAll (promptSlot (("company_info").toList)) (_format_company_info row)
    (replaceAll (promptSlot (("user_highlights").toList)) highlights
      (replaceAll (promptSlot (("candidate_profile").toList)) compact tmpl))

/-- Embedding of `CandidateProfile.compact_profile` (`src/models.py`
lines 89-108). -/
def compact_profile (p : CandidateProfile) : Str :=
  let parts :=
    (if p.headline = [] then [] else [("Headline: ").toList ++ p.headline])
    ++ (if p.core_skills = [] then []
        else [("Core skills: ").toList ++ joinSep ((", ").toList) p.core_skills])
    ++ (if p.technical_skills = [] then []
        else [("Technical skills: ").toList ++ joinSep ((", ").toList) p.technical_skills])
    ++ (if p.experience_highlights = [] then []
        else [("Top experience: ").toList
          ++ joinSep ((" | ").toList) (p.experience_highlights.take 3)])
    ++ (if p.quant_projects = [] then []
        else [("Top projects: ").toList ++ joinSep ((" | ").toList) (p.quant_projects.take 3)])
    ++ (if p.metrics = [] then []
        else [("Metrics: ").toList ++ joinSep ((" | ").toList) (p.metrics.take 3)])
  let result := joinNL parts
  result.take 1200 ++ (if 1200 < result.length then ("...").toList else [])

/-- Embedding of `_draft_for_company` (lines 203-224).  `callResult` is the
outcome of `_call_openai` (`none` = the call raised: missing key, API error or
empty response).  `jsonParse` models the external `json.loads` on the
fence-stripped content: `none` = it raised or the parsed value is not a dict
(making `.get` raise), `some data` = a dict of strings. -/
def _draft_for_company (jsonParse : Str → Option Dict) (callResult : Option Str)
    (tmpl compact highlights : Str) (row : Dict) : Option CompanyDraft :=
  let _prompt := buildPrompt tmpl compact highlights row
  match callResult with
  | none => none
  | some raw =>
    match jsonParse (_strip_json_block raw) with
    | none => none
    | some data =>
      some { tier := truthyOr (dget row (("tier").toList)) [],
             subject := (dget data (("subject").toList)).getD [],
             body := (dget data (("body").toList)).getD [] }

/-- Body of the per-row loop of `main` (lines 272-293): resolve the tier, try
template mode, fall back to generation mode, merge subject and body into the
row; `none` models a caught exception (the row is skipped and logged). -/
def processRow (store : Str → Option Str) (profile : CandidateProfile)
    (promptTmpl compact highlights : Str) (apiKey : Option Str)
    (refineOutcome : RefineOutcome) (jsonParse : Str → Option Dict)
    (callResult : Option Str) (row : Dict) : Option Dict :=
  let tier := resolveTier row
  let ttext := load_template store tier
  if ttext = [] then
    match _draft_for_company jsonParse callResult promptTmpl compact highlights row with
    | none => none
    | some d => some (dset (dset row (("subject").toList) d.subject) (("body").toList) d.body)
  else
    let d := templateDraft tier ttext row profile apiKey refineOutcome
    some (dset (dset row (("subject").toList) d.subject) (("body").toList) d.body)

/-- Accumulating loop of `main` (lines 271-293), with the row index threaded so
each row sees its own external-call outcomes. -/
def runBatchAux (store : Str → Option Str) (profile : CandidateProfile)
    (promptTmpl compact highlights : Str) (apiKey : Option Str)
    (refine : Nat → RefineOutcome) (jsonParse : Str → Option Dict)
    (calls : Nat → Option Str) : Nat → List Dict → List Dict
  | _, [] => []
  | i, row :: rest =>
    match processRow store profile promptTmpl compact highlights apiKey
        (refine i) jsonParse (calls i) row with
    | some d => d :: runBatchAux store profile promptTmpl compact highlights apiKey
        refine jsonParse calls (i + 1) rest
    | none => runBatchAux store profile promptTmpl compact highlights apiKey
        refine jsonParse calls (i + 1) rest

/-- The batch driver of `main` (lines 271-296): the ordered list of draft rows
accumulated over the company rows (the CSV write and the log lines are I/O
outside the embedding). -/
def runBatch (store : Str → Option Str) (profile : CandidateProfile)
    (promptTmpl compact highlights : Str) (apiKey : Option Str)
    (refine : Nat → RefineOutcome) (jsonParse : Str → Option Dict)
    (calls : Nat → Option Str) (rows : List Dict) : List Dict :=
  runBatchAux store profile promptTmpl compact highlights apiKey refine jsonParse calls 0 rows

/-! Helper lemmas about the embedded Python primitives. -/

theorem replaceAllF_nil (f : Nat) (pat val : Str) : replaceAllF f pat val [] = [] := by
  cases f <;> rfl

theorem replaceAllF_congr : ∀ (f g : Nat) (pat val s : Str),
    s.length ≤ f → s.length ≤ g → replaceAllF f pat val s = replaceAllF g pat val s := by
  intro f
  induction f with
  | zero =>
    intro g pat val s hf _
    have : s = [] := List.length_eq_zero.mp (Nat.le_zero.mp hf)
    subst this
    rw [replaceAllF_nil, replaceAllF_nil]
  | succ f ih =>
    intro g pat val s hf hg
    cases s with
    | nil => rw [replaceAllF_nil, replaceAllF_nil]
    | cons c rest =>
      cases g with
      | zero => simp at hg
      | succ g =>
        simp only [replaceAllF]
        by_cases hcond : pat ≠ [] ∧ pat.isPrefixOf (c :: rest)
        · rw [if_pos hcond, if_pos hcond]
          have hlen : (rest.drop (pat.length - 1)).length ≤ rest.length := by
            rw [List.length_drop]; omega
          have hrest : rest.length ≤ f := by
            simp only [List.length_cons] at hf; omega
          have hrest' : rest.length ≤ g := by
            simp only [List.length_cons] at hg; omega
          rw [ih g pat val (rest.drop (pat.length - 1)) (by omega) (by omega)]
        · rw [if_neg hcond, if_neg hcond]
          have hrest : rest.length ≤ f := by
            simp only [List.length_cons] at hf; omega
          have hrest' : rest.length ≤ g := by
            simp only [List.length_cons] at hg; omega
          rw [ih g pat val rest hrest hrest']

theorem replaceAll_nil (pat val : Str) : replaceAll pat val [] = [] := rfl

theorem isPrefixOf_self_append : ∀ (p s : Str), p.isPrefixOf (p ++ s) = true := by
  intro p s
  induction p with
  | nil => simp [List.isPrefixOf]
  | cons a as ih => simp [List.isPrefixOf, ih]

theorem replaceAll_cons_match (pat val tail : Str) (hne : pat ≠ []) :
    replaceAll pat val (pat ++ tail) = val ++ replaceAll pat val tail := by
  cases pat with
  | nil => exact absurd rfl hne
  | cons q qs =>
    show replaceAllF ((q :: qs ++ tail).length) (q :: qs) val (q :: (qs ++ tail))
      = val ++ replaceAll (q :: qs) val tail
    have hlen : ((q :: qs ++ tail)).length = (qs ++ tail).length + 1 := by simp
    rw [hlen]
    simp only [replaceAllF]
    rw [if_pos ⟨hne, isPrefixOf_self_append (q :: qs) tail⟩]
    simp only [List.length_cons, Nat.add_sub_cancel]
    rw [List.drop_left qs tail]
    exact congrArg (fun z => val ++ z)
      (replaceAllF_congr ((qs ++ tail).length) tail.length (q :: qs) val tail
        (by simp) (Nat.le_refl _))

theorem replaceAll_cons_nomatch (pat val : Str) (c : Char) (rest : Str)
    (h : ¬ (pat ≠ [] ∧ pat.isPrefixOf (c :: rest))) :
    replaceAll pat val (c :: rest) = c :: replaceAll pat val rest := by
  show replaceAllF (rest.length + 1) pat val (c :: rest) = c :: replaceAll pat val rest
  simp only [replaceAllF]
  rw [if_neg h]
  rfl

theorem replaceAll_append_of_no_match (pat val : Str) :
    ∀ (x rest : Str), (∀ i, i < x.length → pat.isPrefixOf (x.drop i ++ rest) = false) →
    replaceAll pat val (x ++ rest) = x ++ replaceAll pat val rest := by
  intro x
  induction x with
  | nil => intro rest _; simp
  | cons c x' ih =>
    intro rest h
    have h0 : pat.isPrefixOf (c :: (x' ++ rest)) = false := by
      have h' := h 0 (by simp)
      simpa using h'
    simp only [List.cons_append]
    rw [replaceAll_cons_nomatch pat val c (x' ++ rest)
      (by intro hc; exact absurd hc.2 (by simp [h0]))]
    rw [ih rest (fun i hi => by
      have h' := h (i + 1) (by simp only [List.length_cons]; omega)
      simpa using h')]

theorem take_isPrefixOf_of_isPrefixOf_append :
    ∀ (c p r : Str), p.isPrefixOf (c ++ r) = true → (p.take c.length).isPrefixOf c = true := by
  intro c
  induction c with
  | nil => intro p r _; simp [List.isPrefixOf]
  | cons x xs ih =>
    intro p r hp
    cases p with
    | nil => simp [List.isPrefixOf]
    | cons a as =>
      simp only [List.cons_append, List.isPrefixOf, Bool.and_eq_true] at hp
      simp only [List.length_cons, List.take_succ_cons, List.isPrefixOf, Bool.and_eq_true]
      exact ⟨hp.1, ih as r hp.2⟩

theorem tok_mem_tokOrder : ∀ t : Tok, t ∈ tokOrder := by
  intro t; cases t <;> simp [tokOrder]

theorem tok_take_no_match : ∀ t ∈ tokOrder, ∀ u ∈ tokOrder, ∀ i ∈ List.range (tokStr u).length,
    (¬ (t = u ∧ i = 0)) →
    ((tokStr t).take ((tokStr u).drop i).length).isPrefixOf ((tokStr u).drop i) = false := by
  decide

theorem tokStr_ne_nil (t : Tok) : tokStr t ≠ [] := by
  simp [tokStr]

theorem replaceAll_tok_append_ne (t u : Tok) (hne : t ≠ u) (val rest : Str) :
    replaceAll (tokStr t) val (tokStr u ++ rest) = tokStr u ++ replaceAll (tokStr t) val rest := by
  apply replaceAll_append_of_no_match
  intro i hi
  by_contra hcontra
  have hpre : (tokStr t).isPrefixOf ((tokStr u).drop i ++ rest) = true := by
    cases hval : (tokStr t).isPrefixOf ((tokStr u).drop i ++ rest)
    · exact absurd hval hcontra
    · rfl
  have htake := take_isPrefixOf_of_isPrefixOf_append ((tokStr u).drop i) (tokStr t) rest hpre
  have hfalse := tok_take_no_match t (tok_mem_tokOrder t) u (tok_mem_tokOrder u) i
    (by simpa [List.mem_range] using hi) (by intro ⟨h1, _⟩; exact hne h1)
  rw [htake] at hfalse
  exact Bool.noConfusion hfalse

theorem replaceAll_append_of_no_lbrace (t : Tok) (val x rest : Str) (hx : lbrace ∉ x) :
    replaceAll (tokStr t) val (x ++ rest) = x ++ replaceAll (tokStr t) val rest := by
  apply replaceAll_append_of_no_match
  intro i hi
  have hdrop : x.drop i = x[i] :: x.drop (i + 1) := List.drop_eq_getElem_cons hi
  have hmem : x[i] ∈ x := List.getElem_mem hi
  have hne : x[i] ≠ lbrace := fun h => hx (h ▸ hmem)
  rw [hdrop]
  show (lbrace :: lbrace :: (tokName t ++ [rbrace, rbrace])).isPrefixOf
    (x[i] :: (x.drop (i + 1) ++ rest)) = false
  simp only [List.isPrefixOf, Bool.and_eq_false_iff]
  left
  simpa using fun h => hne h.symm

/-! Segment view of a template: a template given as an interleaving of
brace-free literal pieces and whole placeholder tokens.  This is the shape for
which the sequential substitution of `fill_template` removes every token. -/

/-- One template segment: literal text or a whole placeholder token. -/
inductive Seg where
  | lit : Str → Seg
  | tok : Tok → Seg

/-- The text of one segment. -/
def renderSeg : Seg → Str
  | .lit s => s
  | .tok t => tokStr t

/-- The template text denoted by a segment list. -/
def render (segs : List Seg) : Str := (segs.map renderSeg).flatten

/-- Well-formedness of a segment: literal pieces contain no left brace. -/
def segLitOK : Seg → Prop
  | .lit s => lbrace ∉ s
  | .tok _ => True

instance : DecidablePred segLitOK := by
  intro sg
  cases sg with
  | lit s => exact inferInstanceAs (Decidable (lbrace ∉ s))
  | tok t => exact inferInstanceAs (Decidable True)

/-- Effect of one substitution pass on one segment: the substituted token
becomes literal text. -/
def substSegOne (t : Tok) (val : Str) : Seg → Seg
  | .lit s => .lit s
  | .tok u => if u = t then .lit val else .tok u

/-- Effect of one substitution pass on the segment view. -/
def substSeg (t : Tok) (val : Str) (segs : List Seg) : List Seg :=
  segs.map (substSegOne t val)

theorem render_cons (sg : Seg) (segs : List Seg) :
    render (sg :: segs) = renderSeg sg ++ render segs := by
  simp [render]

theorem replaceAll_render (t : Tok) (val : Str) :
    ∀ segs : List Seg, (∀ sg ∈ segs, segLitOK sg) →
    replaceAll (tokStr t) val (render segs) = render (substSeg t val segs) := by
  intro segs
  induction segs with
  | nil => intro _; simp [render, substSeg, replaceAll_nil]
  | cons sg rest ih =>
    intro h
    have hrest : ∀ s ∈ rest, segLitOK s := fun s hs => h s (List.mem_cons_of_mem sg hs)
    cases sg with
    | lit s =>
      have hs : lbrace ∉ s := h (.lit s) (List.mem_cons_self _ _)
      rw [render_cons]
      show replaceAll (tokStr t) val (s ++ render rest) = render (substSeg t val (.lit s :: rest))
      rw [replaceAll_append_of_no_lbrace t val s (render rest) hs, ih hrest]
      simp [substSeg, render_cons, renderSeg, substSegOne]
    | tok u =>
      rw [render_cons]
      show replaceAll (tokStr t) val (tokStr u ++ render rest)
        = render (substSeg t val (.tok u :: rest))
      by_cases hu : u = t
      · subst hu
        rw [replaceAll_cons_match (tokStr u) val (render rest) (tokStr_ne_nil u), ih hrest]
        simp [substSeg, render_cons, renderSeg, substSegOne]
      · rw [replaceAll_tok_append_ne t u (fun h' => hu h'.symm) val (render rest), ih hrest]
        simp [substSeg, render_cons, renderSeg, substSegOne, hu]

theorem substSeg_segLitOK (t : Tok) (val : Str) (hval : lbrace ∉ val) (segs : List Seg)
    (h : ∀ sg ∈ segs, segLitOK sg) : ∀ sg ∈ substSeg t val segs, segLitOK sg := by
  intro sg hsg
  simp only [substSeg, List.mem_map] at hsg
  obtain ⟨sg0, hsg0, heq⟩ := hsg
  cases sg0 with
  | lit s =>
    simp only [substSegOne] at heq
    subst heq; exact h (.lit s) hsg0
  | tok u =>
    simp only [substSegOne] at heq
    by_cases hu : u = t
    · rw [if_pos hu] at heq
      subst heq; exact hval
    · rw [if_neg hu] at heq
      subst heq; trivial

/-- Folding the substitution passes for a token list over the segment view. -/
def substFold (vals : Tok → Str) (ts : List Tok) (segs : List Seg) : List Seg :=
  ts.foldl (fun sg t => substSeg t (vals t) sg) segs

theorem substFold_segLitOK (vals : Tok → Str) (hvals : ∀ t : Tok, lbrace ∉ vals t) :
    ∀ (ts : List Tok) (segs : List Seg), (∀ sg ∈ segs, segLitOK sg) →
    ∀ sg ∈ substFold vals ts segs, segLitOK sg := by
  intro ts
  induction ts with
  | nil => intro segs h; exact h
  | cons t ts ih =>
    intro segs h
    exact ih (substSeg t (vals t) segs) (substSeg_segLitOK t (vals t) (hvals t) segs h)

theorem seqReplace_render_aux (vals : Tok → Str) (hvals : ∀ t : Tok, lbrace ∉ vals t) :
    ∀ (ts : List Tok) (segs : List Seg), (∀ sg ∈ segs, segLitOK sg) →
    ts.foldl (fun acc t => replaceAll (tokStr t) (vals t) acc) (render segs)
      = render (substFold vals ts segs) := by
  intro ts
  induction ts with
  | nil => intro segs _; rfl
  | cons t ts ih =>
    intro segs h
    simp only [List.foldl_cons, substFold]
    rw [replaceAll_render t (vals t) segs h]
    exact ih (substSeg t (vals t) segs) (substSeg_segLitOK t (vals t) (hvals t) segs h)

theorem seqReplace_render (vals : Tok → Str) (hvals : ∀ t : Tok, lbrace ∉ vals t)
    (segs : List Seg) (h : ∀ sg ∈ segs, segLitOK sg) :
    seqReplace vals (render segs) = render (substFold vals tokOrder segs) :=
  seqReplace_render_aux vals hvals tokOrder segs h

theorem tok_not_mem_substSeg_self (t : Tok) (val : Str) (segs : List Seg) :
    Seg.tok t ∉ substSeg t val segs := by
  intro hmem
  simp only [substSeg, List.mem_map] at hmem
  obtain ⟨sg0, _, heq⟩ := hmem
  cases sg0 with
  | lit s =>
    simp only [substSegOne] at heq
    exact Seg.noConfusion heq
  | tok u =>
    simp only [substSegOne] at heq
    by_cases hu : u = t
    · rw [if_pos hu] at heq; exact Seg.noConfusion heq
    · rw [if_neg hu] at heq
      exact hu (Seg.tok.inj heq)

theorem tok_not_mem_substSeg (u t : Tok) (val : Str) (segs : List Seg)
    (h : Seg.tok u ∉ segs) : Seg.tok u ∉ substSeg t val segs := by
  intro hmem
  simp only [substSeg, List.mem_map] at hmem
  obtain ⟨sg0, hsg0, heq⟩ := hmem
  cases sg0 with
  | lit s =>
    simp only [substSegOne] at heq
    exact Seg.noConfusion heq
  | tok w =>
    simp only [substSegOne] at heq
    by_cases hw : w = t
    · rw [if_pos hw] at heq; exact Seg.noConfusion heq
    · rw [if_neg hw] at heq
      rw [Seg.tok.inj heq] at hsg0
      exact h hsg0

theorem substFold_preserves_no_tok (vals : Tok → Str) :
    ∀ (ts : List Tok) (segs : List Seg) (u : Tok), Seg.tok u ∉ segs →
    Seg.tok u ∉ substFold vals ts segs := by
  intro ts
  induction ts with
  | nil => intro segs u h; exact h
  | cons t ts ih =>
    intro segs u h
    exact ih (substSeg t (vals t) segs) u (tok_not_mem_substSeg u t (vals t) segs h)

theorem substFold_no_tok (vals : Tok → Str) :
    ∀ (ts : List Tok) (segs : List Seg) (u : Tok), u ∈ ts →
    Seg.tok u ∉ substFold vals ts segs := by
  intro ts
  induction ts with
  | nil => intro segs u hu; exact absurd hu (List.not_mem_nil u)
  | cons t ts ih =>
    intro segs u hu
    rcases List.mem_cons.mp hu with h1 | h2
    · subst h1
      exact substFold_preserves_no_tok vals ts (substSeg u (vals u) segs) u
        (tok_not_mem_substSeg_self u (vals u) segs)
    · exact ih (substSeg t (vals t) segs) u h2

theorem lbrace_not_mem_render (segs : List Seg) (hlit : ∀ sg ∈ segs, segLitOK sg)
    (htok : ∀ u : Tok, Seg.tok u ∉ segs) : lbrace ∉ render segs := by
  induction segs with
  | nil => simp [render]
  | cons sg rest ih =>
    rw [render_cons]
    intro hmem
    rcases List.mem_append.mp hmem with h1 | h2
    · cases sg with
      | lit s => exact hlit (.lit s) (List.mem_cons_self _ _) h1
      | tok u => exact htok u (List.mem_cons_self _ _)
    · exact ih (fun s hs => hlit s (List.mem_cons_of_mem sg hs))
        (fun u hu => htok u (List.mem_cons_of_mem sg hu)) h2

theorem mem_pyRstrip (s : Str) (c : Char) (h : c ∈ pyRstrip s) : c ∈ s := by
  simp only [pyRstrip, List.mem_reverse] at h
  exact List.mem_reverse.mp ((List.dropWhile_sublist pyIsSpace).subset h)

theorem mem_pyLstrip (s : Str) (c : Char) (h : c ∈ pyLstrip s) : c ∈ s :=
  (List.dropWhile_sublist pyIsSpace).subset h

theorem mem_pyStrip (s : Str) (c : Char) (h : c ∈ pyStrip s) : c ∈ s :=
  mem_pyLstrip s c (mem_pyRstrip (pyLstrip s) c h)

theorem mem_joinSep (sep : Str) (c : Char) :
    ∀ ls : List Str, c ∈ joinSep sep ls → c ∈ sep ∨ ∃ l ∈ ls, c ∈ l := by
  intro ls
  induction ls with
  | nil => intro h; simp [joinSep] at h
  | cons l tail ih =>
    intro h
    cases tail with
    | nil =>
      simp only [joinSep] at h
      exact Or.inr ⟨l, List.mem_cons_self _ _, h⟩
    | cons l2 ls' =>
      simp only [joinSep, List.append_assoc, List.mem_append] at h
      rcases h with h1 | h2 | h3
      · exact Or.inr ⟨l, List.mem_cons_self _ _, h1⟩
      · exact Or.inl h2
      · rcases ih h3 with hs | ⟨l0, hl0, hc⟩
        · exact Or.inl hs
        · exact Or.inr ⟨l0, List.mem_cons_of_mem l hl0, hc⟩

theorem mem_dedupeBlanks (l : Str) :
    ∀ (b : Bool) (ls : List Str), l ∈ dedupeBlanks b ls → l ∈ ls := by
  intro b ls
  induction ls generalizing b with
  | nil => intro h; simp [dedupeBlanks] at h
  | cons x tail ih =>
    intro h
    simp only [dedupeBlanks] at h
    by_cases hb : (pyStrip x).isEmpty && b
    · rw [if_pos hb] at h
      exact List.mem_cons_of_mem x (ih b h)
    · rw [if_neg hb] at h
      rcases List.mem_cons.mp h with h1 | h2
      · exact h1 ▸ List.mem_cons_self x tail
      · exact List.mem_cons_of_mem x (ih _ h2)

theorem mem_pySplitlines : ∀ (s : Str) (l : Str), l ∈ pySplitlines s → ∀ c ∈ l, c ∈ s := by
  intro s
  induction s using pySplitlines.induct with
  | case1 =>
    intro l h
    simp [pySplitlines] at h
  | case2 =>
    intro l h c hc
    have : pySplitlines ['\r'] = [[]] := rfl
    rw [this] at h
    rcases List.mem_singleton.mp h with h1
    subst h1
    simp at hc
  | case3 rest2 ih =>
    intro l h c hc
    have : pySplitlines ('\r' :: '\n' :: rest2) = [] :: pySplitlines rest2 := rfl
    rw [this] at h
    rcases List.mem_cons.mp h with h1 | h2
    · subst h1; simp at hc
    · exact List.mem_cons_of_mem _ (List.mem_cons_of_mem _ (ih l h2 c hc))
  | case4 c2 rest2 hne ih =>
    intro l h c hc
    rw [pySplitlines.eq_def] at h
    dsimp only at h
    rw [if_pos rfl, if_neg hne] at h
    rcases List.mem_cons.mp h with h1 | h2
    · subst h1; simp at hc
    · exact List.mem_cons_of_mem _ (ih l h2 c hc)
  | case5 c0 rest hne hbreak ih =>
    intro l h c hc
    rw [pySplitlines.eq_def] at h
    dsimp only at h
    rw [if_neg hne, if_pos hbreak] at h
    rcases List.mem_cons.mp h with h1 | h2
    · subst h1; simp at hc
    · exact List.mem_cons_of_mem _ (ih l h2 c hc)
  | case6 c0 rest hne hbreak hnil ih =>
    intro l h c hc
    rw [pySplitlines.eq_def] at h
    dsimp only at h
    rw [if_neg hne, if_neg hbreak, hnil] at h
    dsimp only at h
    rcases List.mem_singleton.mp h with h1
    subst h1
    rcases List.mem_singleton.mp hc with h2
    exact h2 ▸ List.mem_cons_self c0 rest
  | case7 c0 rest hne hbreak l0 ls0 hcons ih =>
    intro l h c hc
    rw [pySplitlines.eq_def] at h
    dsimp only at h
    rw [if_neg hne, if_neg hbreak, hcons] at h
    dsimp only at h
    rcases List.mem_cons.mp h with h1 | h2
    · subst h1
      rcases List.mem_cons.mp hc with hc1 | hc2
      · exact hc1 ▸ List.mem_cons_self c0 rest
      · exact List.mem_cons_of_mem _ (ih l0 (hcons ▸ List.mem_cons_self l0 ls0) c hc2)
    · exact List.mem_cons_of_mem _ (ih l (hcons ▸ List.mem_cons_of_mem l0 h2) c hc)

theorem mem_cleanFilled (s : Str) (c : Char) (h : c ∈ cleanFilled s) : c = '\n' ∨ c ∈ s := by
  have h1 := mem_pyStrip _ c h
  rcases mem_joinSep ['\n'] c _ h1 with hs | ⟨l, hl, hc⟩
  · exact Or.inl (List.mem_singleton.mp hs)
  · have hl2 := mem_dedupeBlanks l false _ hl
    rcases List.mem_map.mp hl2 with ⟨l0, hl0, heq⟩
    have hc0 : c ∈ l0 := mem_pyRstrip l0 c (heq ▸ hc)
    exact Or.inr (mem_pySplitlines s l0 hl0 c hc0)

theorem mem_truncateMax (s : Str) (c : Char) (h : c ∈ truncateMax s) : c ∈ s := by
  simp only [truncateMax] at h
  by_cases hlen : MAX_FILLED_LENGTH < s.length
  · rw [if_pos hlen] at h
    exact (List.take_sublist _ _).subset (mem_pyRstrip _ c h)
  · rw [if_neg hlen] at h
    exact h

theorem lbrace_not_mem_truncate_clean (s : Str) (h : lbrace ∉ s) :
    lbrace ∉ truncateMax (cleanFilled s) := by
  intro hmem
  rcases mem_cleanFilled s lbrace (mem_truncateMax _ lbrace hmem) with h1 | h2
  · exact absurd h1 (by decide)
  · exact h h2

theorem containsSub_tok_eq_false_of_no_lbrace (t : Tok) :
    ∀ s : Str, lbrace ∉ s → containsSub (tokStr t) s = false := by
  intro s
  induction s with
  | nil =>
    intro _
    show (tokStr t).isEmpty = false
    simp [tokStr]
  | cons c rest ih =>
    intro h
    have hc : c ≠ lbrace := fun hc => h (hc ▸ List.mem_cons_self c rest)
    simp only [containsSub, Bool.or_eq_false_iff]
    constructor
    · show (lbrace :: lbrace :: (tokName t ++ [rbrace, rbrace])).isPrefixOf (c :: rest) = false
      simp only [List.isPrefixOf, Bool.and_eq_false_iff]
      left
      simpa using fun h' => hc h'.symm
    · exact ih (fun hmem => h (List.mem_cons_of_mem c hmem))

theorem replaceAll_eq_self_of_not_contains (pat val : Str) :
    ∀ s : Str, containsSub pat s = false → replaceAll pat val s = s := by
  intro s
  induction s with
  | nil => intro _; exact replaceAll_nil pat val
  | cons c rest ih =>
    intro h
    simp only [containsSub, Bool.or_eq_false_iff] at h
    rw [replaceAll_cons_nomatch pat val c rest (fun hc => by
      rw [h.1] at hc
      exact Bool.noConfusion hc.2)]
    rw [ih h.2]

theorem seqReplace_eq_self (vals : Tok → Str) :
    ∀ (ts : List Tok) (s : Str), (∀ t ∈ ts, containsSub (tokStr t) s = false) →
    ts.foldl (fun acc t => replaceAll (tokStr t) (vals t) acc) s = s := by
  intro ts
  induction ts with
  | nil => intro s _; rfl
  | cons t ts ih =>
    intro s h
    simp only [List.foldl_cons]
    rw [replaceAll_eq_self_of_not_contains (tokStr t) (vals t) s (h t (List.mem_cons_self t ts))]
    exact ih s (fun u hu => h u (List.mem_cons_of_mem t hu))

/-- C9: for a template containing none of the ten placeholder tokens, and any
company record, candidate profile and score record, `fill_template` returns
exactly the whitespace-normalized (right-trimmed lines, collapsed blank runs,
overall trim) and length-truncated template, inserting and removing no other
text. -/
theorem claim_C9 (template : Str) (company : Dict) (profile : CandidateProfile)
    (score : Option (List Str))
    (h : ∀ t ∈ tokOrder, containsSub (tokStr t) template = false) :
    fill_template template company profile score = truncateMax (cleanFilled template) := by
  unfold fill_template seqReplace
  rw [seqReplace_eq_self (tokValue company profile score) tokOrder template h]

/-- Witness for C9 at a concrete placeholder-free template. -/
theorem claim_C9_witness :
    fill_template (("Hello world  \n\n\n\nBye").toList) [] {} none
      = truncateMax (cleanFilled (("Hello world  \n\n\n\nBye").toList)) :=
  claim_C9 (("Hello world  \n\n\n\nBye").toList) [] {} none (by decide)

/-- Concrete inputs for the C1 witness: a well-formed segment template and
small company/profile data. -/
def segsW : List Seg :=
  [Seg.lit (("Hi ").toList), Seg.tok .candidateName, Seg.lit ((", about ").toList),
   Seg.tok .companyName, Seg.lit (("!").toList)]

/-- Concrete company row for the C1 witness. -/
def companyW : Dict := [(("company_name").toList, ("Acme").toList)]

/-- Concrete profile for the C1 witness. -/
def profileW : CandidateProfile := { name := ("Ada").toList }

/-- C1 (amended): `fill_template` substitutes the ten tokens sequentially in
dict order, treats missing or empty source fields as the empty string, and is
a total function (never raises).  For templates that interleave brace-free
literal text with whole token occurrences, and data whose substituted values
contain no left brace, each token occurrence is replaced by its value and no
literal token remains in the output.  (In general a literal token can survive:
substitution can reassemble one, see the counterexample.) -/
theorem claim_C1_amended (segs : List Seg) (company : Dict) (profile : CandidateProfile)
    (score : Option (List Str))
    (hsegs : ∀ sg ∈ segs, segLitOK sg)
    (hvals : ∀ t ∈ tokOrder, lbrace ∉ tokValue company profile score t) :
    fill_template (render segs) company profile score
      = truncateMax (cleanFilled
          (render (substFold (tokValue company profile score) tokOrder segs)))
    ∧ ∀ t : Tok, containsSub (tokStr t)
        (fill_template (render segs) company profile score) = false := by
  have hvals' : ∀ t : Tok, lbrace ∉ tokValue company profile score t :=
    fun t => hvals t (tok_mem_tokOrder t)
  have hmain : seqReplace (tokValue company profile score) (render segs)
      = render (substFold (tokValue company profile score) tokOrder segs) :=
    seqReplace_render _ hvals' segs hsegs
  constructor
  · unfold fill_template
    rw [hmain]
  · intro t
    apply containsSub_tok_eq_false_of_no_lbrace
    unfold fill_template
    rw [hmain]
    apply lbrace_not_mem_truncate_clean
    apply lbrace_not_mem_render
    · exact substFold_segLitOK _ hvals' tokOrder segs hsegs
    · intro u
      exact substFold_no_tok _ tokOrder segs u (tok_mem_tokOrder u)

/-- Witness for C1 (amended) at a concrete segment template and data. -/
theorem claim_C1_amended_witness :
    fill_template (render segsW) companyW profileW none
      = truncateMax (cleanFilled
          (render (substFold (tokValue companyW profileW none) tokOrder segsW)))
    ∧ ∀ t : Tok, containsSub (tokStr t)
        (fill_template (render segsW) companyW profileW none) = false :=
  claim_C1_amended segsW companyW profileW none (by decide) (by decide)

/-- Counterexample to C1 as stated: replacing the `jobs_url` token (third
pass) by the empty string reassembles a literal `company_name` token out of
the surrounding template text, after the `company_name` pass has already run;
the output consists of that literal token. -/
theorem claim_C1_counterexample :
    fill_template
      (lbrace :: lbrace :: (("comp").toList ++ tokStr Tok.jobsUrl
        ++ ("any_name").toList ++ [rbrace, rbrace]))
      [] {} none = tokStr Tok.companyName
    ∧ containsSub (tokStr Tok.companyName)
        (fill_template
          (lbrace :: lbrace :: (("comp").toList ++ tokStr Tok.jobsUrl
            ++ ("any_name").toList ++ [rbrace, rbrace]))
          [] {} none) = true := by
  constructor <;> decide

theorem length_pyRstrip_le (s : Str) : (pyRstrip s).length ≤ s.length := by
  simp only [pyRstrip, List.length_reverse]
  have := (List.dropWhile_sublist pyIsSpace (l := s.reverse)).length_le
  simpa using this

theorem length_pyStrip_le (s : Str) : (pyStrip s).length ≤ s.length :=
  Nat.le_trans (length_pyRstrip_le (pyLstrip s))
    ((List.dropWhile_sublist pyIsSpace).length_le)

theorem truncateMax_length_le (s : Str) : (truncateMax s).length ≤ MAX_FILLED_LENGTH := by
  simp only [truncateMax]
  by_cases h : MAX_FILLED_LENGTH < s.length
  · rw [if_pos h]
    exact Nat.le_trans (length_pyRstrip_le _) (List.length_take_le _ _)
  · rw [if_neg h]
    omega

theorem truncateMax_eq_self (s : Str) (h : s.length ≤ MAX_FILLED_LENGTH) :
    truncateMax s = s := by
  simp only [truncateMax]
  rw [if_neg (by omega)]

theorem joinNL_cons_head (c : Char) (l : Str) (ls : List Str) :
    joinNL ((c :: l) :: ls) = c :: joinNL (l :: ls) := by
  cases ls with
  | nil => rfl
  | cons x ls' => simp [joinNL, joinSep]

theorem length_joinNL_nil_cons (ls : List Str) :
    (joinNL ([] :: ls)).length ≤ 1 + (joinNL ls).length := by
  cases ls with
  | nil => simp [joinNL, joinSep]
  | cons x ls' => simp [joinNL, joinSep]; omega

theorem length_joinNL_tail (l : Str) (ls : List Str) :
    (joinNL ls).length ≤ (joinNL (l :: ls)).length := by
  cases ls with
  | nil => simp [joinNL, joinSep]
  | cons x ls' => simp [joinNL, joinSep]; omega

theorem length_joinNL_splitlines : ∀ s : Str, (joinNL (pySplitlines s)).length ≤ s.length := by
  intro s
  induction s using pySplitlines.induct with
  | case1 => simp [pySplitlines, joinNL, joinSep]
  | case2 =>
    have : pySplitlines ['\r'] = [[]] := rfl
    rw [this]
    simp [joinNL, joinSep]
  | case3 rest2 ih =>
    have heq : pySplitlines ('\r' :: '\n' :: rest2) = [] :: pySplitlines rest2 := rfl
    rw [heq]
    have h1 := length_joinNL_nil_cons (pySplitlines rest2)
    simp only [List.length_cons]
    omega
  | case4 c2 rest2 hne ih =>
    rw [pySplitlines.eq_def]
    dsimp only
    rw [if_pos rfl, if_neg hne]
    have h1 := length_joinNL_nil_cons (pySplitlines (c2 :: rest2))
    simp only [List.length_cons] at *
    omega
  | case5 c0 rest hne hbreak ih =>
    rw [pySplitlines.eq_def]
    dsimp only
    rw [if_neg hne, if_pos hbreak]
    have h1 := length_joinNL_nil_cons (pySplitlines rest)
    simp only [List.length_cons]
    omega
  | case6 c0 rest hne hbreak hnil ih =>
    rw [pySplitlines.eq_def]
    dsimp only
    rw [if_neg hne, if_neg hbreak, hnil]
    simp [joinNL, joinSep]
  | case7 c0 rest hne hbreak l0 ls0 hcons ih =>
    rw [pySplitlines.eq_def]
    dsimp only
    rw [if_neg hne, if_neg hbreak, hcons]
    dsimp only
    rw [joinNL_cons_head]
    rw [hcons] at ih
    simp only [List.length_cons]
    omega

theorem extractAux_snd_le (text : Str) :
    ∀ ls : List Str, (joinNL ls).length ≤ text.length →
    (extractAux text ls).2.length ≤ text.length := by
  intro ls
  induction ls with
  | nil => intro _; exact Nat.le_refl _
  | cons l rest ih =>
    intro h
    simp only [extractAux]
    by_cases hsub : isSubjectLine l
    · rw [if_pos hsub]
      dsimp only
      have h1 := length_pyStrip_le (joinNL rest)
      have h2 := length_joinNL_tail l rest
      omega
    · rw [if_neg hsub]
      have h2 := length_joinNL_tail l rest
      exact ih (by omega)

theorem extract_body_le (text : Str) :
    (_extract_subject_from_body text).2.length ≤ text.length :=
  extractAux_snd_le text (pySplitlines text) (length_joinNL_splitlines text)

/-- C3 (amended): every template-mode body is bounded: `fill_template` output
length never exceeds `MAX_FILLED_LENGTH`, truncation appends no marker and
happens only when the pre-truncation normalized length exceeds the maximum
(otherwise the output is exactly the normalized text), and the body of every
template-mode CompanyDraft respects the bound.  (Generation-mode bodies are
copied from the parsed model response without truncation and are unbounded,
see the counterexample.) -/
theorem claim_C3_amended :
    (∀ (template : Str) (company : Dict) (profile : CandidateProfile)
        (score : Option (List Str)),
      (fill_template template company profile score).length ≤ MAX_FILLED_LENGTH)
    ∧ (∀ (template : Str) (company : Dict) (profile : CandidateProfile)
        (score : Option (List Str)),
      (cleanFilled (seqReplace (tokValue company profile score) template)).length
          ≤ MAX_FILLED_LENGTH →
      fill_template template company profile score
        = cleanFilled (seqReplace (tokValue company profile score) template))
    ∧ (∀ (tier ttext : Str) (row : Dict) (profile : CandidateProfile)
        (apiKey : Option Str) (ro : RefineOutcome),
      (templateDraft tier ttext row profile apiKey ro).body.length ≤ MAX_FILLED_LENGTH) := by
  refine ⟨fun template company profile score => truncateMax_length_le _,
    fun template company profile score h => truncateMax_eq_self _ h,
    fun tier ttext row profile apiKey ro => ?_⟩
  have hbody : (templateDraft tier ttext row profile apiKey ro).body
      = (_extract_subject_from_body (fill_template ttext row profile (some []))).2 := by
    simp [templateDraft, USE_GPT_REFINEMENT]
  rw [hbody]
  exact Nat.le_trans (extract_body_le (fill_template ttext row profile (some [])))
    (truncateMax_length_le _)

/-- Witness for C3 (amended), exercising the no-truncation conjunct at a
concrete short template. -/
theorem claim_C3_amended_witness :
    fill_template (("short body").toList) [] {} none
      = cleanFilled (seqReplace (tokValue [] {} none) (("short body").toList)) :=
  claim_C3_amended.2.1 (("short body").toList) [] {} none (by decide)

/-- Counterexample to C3 as stated: in generation mode the parsed response
body is stored without truncation; a run whose model call returns a
2001-character body emits a draft record with that body, exceeding
`MAX_FILLED_LENGTH`. -/
theorem claim_C3_counterexample :
    Option.bind
      (processRow (fun _ => none) {} [] [] [] none .raised
        (fun _ => some [(("subject").toList, ("s").toList),
                        (("body").toList, List.replicate 2001 'a')])
        (some (("J").toList))
        [(("company_name").toList, ("one").toList)])
      (fun d => dget d (("body").toList)) = some (List.replicate 2001 'a')
    ∧ MAX_FILLED_LENGTH < (List.replicate 2001 'a').length := by
  constructor
  · rfl
  · rw [List.length_replicate]
    decide

theorem extractAux_no_subject (text : Str) :
    ∀ ls : List Str, (∀ l ∈ ls, isSubjectLine l = false) → extractAux text ls = ([], text) := by
  intro ls
  induction ls with
  | nil => intro _; rfl
  | cons l rest ih =>
    intro h
    simp only [extractAux]
    rw [if_neg (by simp [h l (List.mem_cons_self l rest)])]
    exact ih (fun l2 h2 => h l2 (List.mem_cons_of_mem l h2))

theorem extractAux_first_subject (text : Str) :
    ∀ (pre : List Str) (l : Str) (post : List Str),
    (∀ l2 ∈ pre, isSubjectLine l2 = false) → isSubjectLine l = true →
    extractAux text (pre ++ l :: post)
      = (pyStrip ((pyStrip l).drop 8), pyStrip (joinNL post)) := by
  intro pre
  induction pre with
  | nil =>
    intro l post _ hl
    simp only [List.nil_append, extractAux]
    rw [if_pos hl]
  | cons p pre' ih =>
    intro l post hpre hl
    simp only [List.cons_append, extractAux]
    rw [if_neg (by simp [hpre p (List.mem_cons_self p pre')])]
    exact ih l post (fun l2 h2 => hpre l2 (List.mem_cons_of_mem p h2)) hl

/-- C5: the subject extractor stops at the first line whose trimmed,
case-insensitive form starts with `subject:`; the subject is the rest of that
trimmed line after the 8-character marker, trimmed, and the body is the later
lines joined with newlines and trimmed; with no such line it returns the empty
subject and the original text unchanged; on the concrete example
`"Subject: Hello\nBody line 1\nBody line 2"` it returns `"Hello"` and
`"Body line 1\nBody line 2"`. -/
theorem claim_C5 :
    (_extract_subject_from_body (("Subject: Hello\nBody line 1\nBody line 2").toList)
      = (("Hello").toList, ("Body line 1\nBody line 2").toList))
    ∧ (∀ text : Str, (∀ l ∈ pySplitlines text, isSubjectLine l = false) →
        _extract_subject_from_body text = ([], text))
    ∧ (∀ (text : Str) (pre : List Str) (l : Str) (post : List Str),
        pySplitlines text = pre ++ l :: post →
        (∀ l2 ∈ pre, isSubjectLine l2 = false) → isSubjectLine l = true →
        _extract_subject_from_body text
          = (pyStrip ((pyStrip l).drop 8), pyStrip (joinNL post))) := by
  refine ⟨by decide, ?_, ?_⟩
  · intro text h
    exact extractAux_no_subject text (pySplitlines text) h
  · intro text pre l post heq hpre hl
    unfold _extract_subject_from_body
    rw [heq]
    exact extractAux_first_subject text pre l post hpre hl

/-- Witness for C5 on concrete texts with and without a subject marker. -/
theorem claim_C5_witness :
    _extract_subject_from_body (("no marker here\njust text").toList)
      = ([], ("no marker here\njust text").toList)
    ∧ _extract_subject_from_body (("intro\n  SUBJECT:  Greetings \nrest1\nrest2").toList)
      = (pyStrip ((pyStrip (("  SUBJECT:  Greetings ").toList)).drop 8),
         pyStrip (joinNL [("rest1").toList, ("rest2").toList])) :=
  ⟨claim_C5.2.1 (("no marker here\njust text").toList) (by decide),
   claim_C5.2.2 (("intro\n  SUBJECT:  Greetings \nrest1\nrest2").toList)
     [("intro").toList] (("  SUBJECT:  Greetings ").toList)
     [("rest1").toList, ("rest2").toList] (by decide) (by decide) (by decide)⟩

/-- C6: the refinement step keeps the original body byte-for-byte when the
external call raises, when the response content is empty, and when the
refined (stripped) candidate is more than 110% of the original body's length;
whenever the result differs from the original body, the call returned content
whose stripped form is within 110% of the original length.  The source's
float comparison `len(refined) <= len(body) * 1.1` is stated exactly as
`10 * len(refined) <= 11 * len(body)`. -/
theorem claim_C6 (apiKey : Option Str) (body : Str) :
    (_gpt_refine_body apiKey .raised body = body)
    ∧ (_gpt_refine_body apiKey (.respond []) body = body)
    ∧ (∀ c : Str, 11 * body.length < 10 * (pyStrip c).length →
        _gpt_refine_body apiKey (.respond c) body = body)
    ∧ (∀ outcome : RefineOutcome, _gpt_refine_body apiKey outcome body ≠ body →
        ∃ c : Str, outcome = .respond c ∧ 10 * (pyStrip c).length ≤ 11 * body.length) := by
  cases apiKey with
  | none =>
    refine ⟨rfl, rfl, fun c _ => rfl, fun outcome h => absurd rfl h⟩
  | some key =>
    by_cases hkey : key = [] ∨ pyStrip key = []
    · refine ⟨?_, ?_, fun c _ => ?_, fun outcome h => ?_⟩
      · simp only [_gpt_refine_body]; rw [if_pos hkey]
      · simp only [_gpt_refine_body]; rw [if_pos hkey]
      · simp only [_gpt_refine_body]; rw [if_pos hkey]
      · exfalso; apply h
        simp only [_gpt_refine_body]; rw [if_pos hkey]
    · refine ⟨?_, ?_, fun c hc => ?_, fun outcome h => ?_⟩
      · simp only [_gpt_refine_body]; rw [if_neg hkey]
      · simp only [_gpt_refine_body]; rw [if_neg hkey]
        simp
      · simp only [_gpt_refine_body]; rw [if_neg hkey]
        by_cases hcnil : c = []
        · rw [if_pos hcnil]
        · rw [if_neg hcnil]
          rw [if_neg (by omega)]
      · revert h
        simp only [_gpt_refine_body]
        rw [if_neg hkey]
        cases outcome with
        | raised => intro h; exact absurd rfl h
        | respond c =>
          intro h
          dsimp only at h
          by_cases hcnil : c = []
          · rw [if_pos hcnil] at h; exact absurd rfl h
          · rw [if_neg hcnil] at h
            by_cases hlen : 10 * (pyStrip c).length ≤ 11 * body.length
            · exact ⟨c, rfl, hlen⟩
            · rw [if_neg hlen] at h; exact absurd rfl h

/-- Witness for C6: an over-long refined candidate is discarded at concrete
inputs. -/
theorem claim_C6_witness :
    _gpt_refine_body (some (("k").toList)) (.respond (("aaaaaaaaaaaa").toList)) (("abc").toList)
      = ("abc").toList :=
  (claim_C6 (some (("k").toList)) (("abc").toList)).2.2.1 (("aaaaaaaaaaaa").toList) (by decide)

theorem dropWhile_dropWhile (p : Char → Bool) :
    ∀ l : List Char, List.dropWhile p (List.dropWhile p l) = List.dropWhile p l := by
  intro l
  induction l with
  | nil => rfl
  | cons c rest ih =>
    by_cases hc : p c
    · simp [List.dropWhile_cons, hc, ih]
    · simp [List.dropWhile_cons, hc]

theorem pyRstrip_idem (s : Str) : pyRstrip (pyRstrip s) = pyRstrip s := by
  simp only [pyRstrip, List.reverse_reverse]
  rw [dropWhile_dropWhile]

theorem pyRstrip_append (s : Str) :
    s = pyRstrip s ++ (List.takeWhile pyIsSpace s.reverse).reverse := by
  have h := List.takeWhile_append_dropWhile pyIsSpace s.reverse
  have h2 := congrArg List.reverse h
  rw [List.reverse_append, List.reverse_reverse] at h2
  exact h2.symm

theorem head_dropWhile_false (p : Char → Bool) :
    ∀ (l : List Char) (h : Char) (t : List Char), List.dropWhile p l = h :: t → p h = false := by
  intro l
  induction l with
  | nil => intro h t hd; simp [List.dropWhile] at hd
  | cons c rest ih =>
    intro h t hd
    rw [List.dropWhile_cons] at hd
    by_cases hc : p c
    · rw [if_pos hc] at hd
      exact ih h t hd
    · rw [if_neg hc] at hd
      rw [← (List.cons.inj hd).1]
      simpa using hc

theorem pyLstrip_pyStrip (s : Str) : pyLstrip (pyStrip s) = pyStrip s := by
  cases hr : pyRstrip (pyLstrip s) with
  | nil =>
    show pyLstrip (pyRstrip (pyLstrip s)) = pyRstrip (pyLstrip s)
    rw [hr]
    rfl
  | cons h t =>
    have hsplit := pyRstrip_append (pyLstrip s)
    rw [hr, List.cons_append] at hsplit
    have hnp : pyIsSpace h = false := head_dropWhile_false pyIsSpace s h _ hsplit
    show pyLstrip (pyRstrip (pyLstrip s)) = pyRstrip (pyLstrip s)
    rw [hr]
    show List.dropWhile pyIsSpace (h :: t) = h :: t
    simp [List.dropWhile_cons, hnp]

theorem pyStrip_idem (s : Str) : pyStrip (pyStrip s) = pyStrip s := by
  show pyRstrip (pyLstrip (pyStrip s)) = pyStrip s
  rw [pyLstrip_pyStrip]
  show pyRstrip (pyRstrip (pyLstrip s)) = pyRstrip (pyLstrip s)
  exact pyRstrip_idem _

theorem strip_json_block_eq (s : Str) :
    _strip_json_block s
      = pyStrip (if fenceMarker.isPrefixOf (pyStrip s)
          then stripFenceSuffixSub (stripFencePrefixSub (pyStrip s))
          else pyStrip s) := rfl

theorem strip_json_block_stripped (s : Str) :
    pyStrip (_strip_json_block s) = _strip_json_block s := by
  rw [strip_json_block_eq s]
  exact pyStrip_idem _

/-- C8 (amended): re-running the fence stripper on its own output returns it
unchanged whenever that output does not itself begin with a fence marker; it
is not idempotent in general, because stacked fences can leave an output that
still begins with a fence (see the counterexample). -/
theorem claim_C8_amended (s : Str)
    (h : fenceMarker.isPrefixOf (_strip_json_block s) = false) :
    _strip_json_block (_strip_json_block s) = _strip_json_block s := by
  rw [strip_json_block_eq (_strip_json_block s), strip_json_block_stripped s]
  rw [if_neg (by simp [h])]
  exact strip_json_block_stripped s

/-- Witness for C8 (amended) on a concrete fenced input whose stripped output
carries no fence. -/
theorem claim_C8_amended_witness :
    _strip_json_block (_strip_json_block (("```json\nhi\n```").toList))
      = _strip_json_block (("```json\nhi\n```").toList) :=
  claim_C8_amended (("```json\nhi\n```").toList) (by decide)

/-- Counterexample to C8 as stated: on six backticks followed by `x`, one pass
leaves a string that still begins with a fence, and a second pass strips
further, so fence-stripping is not idempotent. -/
theorem claim_C8_counterexample :
    _strip_json_block (_strip_json_block (("``````x").toList))
      ≠ _strip_json_block (("``````x").toList) := by decide

/-- Template lookup key a row's tier is resolved to: the composition of the
tier resolution in `main` (line 273) and the sanitization in `load_template`
(lines 45-47). -/
def tierLookupKey (row : Dict) : Str := sanitizeTierKey (resolveTier row)

/-- C10: the template lookup key is the row's tier value stripped, lowercased
and restricted to `[a-z0-9_]`; `"Ultra!!"` normalizes to `"ultra"`; a missing,
empty or blank tier — or one that sanitizes to nothing — normalizes to
`"standard"`. -/
theorem claim_C10 :
    (tierLookupKey [(("tier").toList, ("Ultra!!").toList)] = ("ultra").toList)
    ∧ (tierLookupKey [] = ("standard").toList)
    ∧ (tierLookupKey [(("tier").toList, [])] = ("standard").toList)
    ∧ (∀ row : Dict,
        tierLookupKey row
          = (if (pyLower (pyStrip (dgetS row (("tier").toList)))).filter isTierChar = []
             then ("standard").toList
             else (pyLower (pyStrip (dgetS row (("tier").toList)))).filter isTierChar)) := by
  refine ⟨by decide, by decide, by decide, ?_⟩
  intro row
  cases hget : dget row (("tier").toList) with
  | none =>
    have h1 : resolveTier row = ("standard").toList := by
      unfold resolveTier
      rw [hget]
      decide
    have h2 : tierLookupKey row = ("standard").toList := by
      unfold tierLookupKey
      rw [h1]
      decide
    have h3 : dgetS row (("tier").toList) = [] := by
      unfold dgetS
      rw [hget]
      rfl
    rw [h2, h3]
    decide
  | some v =>
    have h3 : dgetS row (("tier").toList) = v := by
      unfold dgetS
      rw [hget]
      show truthyOr (some v) [] = v
      unfold truthyOr
      by_cases hv : v = [] <;> simp [hv]
    rw [h3]
    by_cases hv : v = []
    · subst hv
      have h1 : resolveTier row = ("standard").toList := by
        unfold resolveTier
        rw [hget]
        decide
      have h2 : tierLookupKey row = ("standard").toList := by
        unfold tierLookupKey
        rw [h1]
        decide
      rw [h2]
      decide
    · have h1 : resolveTier row
          = (if pyStrip v = [] then ("standard").toList else pyStrip v) := by
        unfold resolveTier truthyOr
        rw [hget]
        dsimp only
        rw [if_neg hv]
      by_cases hb : pyStrip v = []
      · have h2 : tierLookupKey row = ("standard").toList := by
          unfold tierLookupKey
          rw [h1, if_pos hb]
          decide
        rw [h2, hb]
        decide
      · have h2 : tierLookupKey row = sanitizeTierKey (pyStrip v) := by
          unfold tierLookupKey
          rw [h1, if_neg hb]
        rw [h2]
        unfold sanitizeTierKey
        have hcond : ¬ (pyStrip v = [] ∨ pyStrip (pyStrip v) = []) := by
          intro hor
          rcases hor with h4 | h4
          · exact hb h4
          · rw [pyStrip_idem v] at h4
            exact hb h4
        rw [if_neg hcond]
        dsimp only
        rw [pyStrip_idem v]

theorem runBatchAux_eq_filterMap (store : Str → Option Str) (profile : CandidateProfile)
    (promptTmpl compact highlights : Str) (apiKey : Option Str)
    (refine : Nat → RefineOutcome) (jsonParse : Str → Option Dict)
    (calls : Nat → Option Str) :
    ∀ (rows : List Dict) (i : Nat),
    runBatchAux store profile promptTmpl compact highlights apiKey refine jsonParse calls i rows
      = (rows.enumFrom i).filterMap
          (fun p => processRow store profile promptTmpl compact highlights apiKey
            (refine p.1) jsonParse (calls p.1) p.2) := by
  intro rows
  induction rows with
  | nil => intro i; rfl
  | cons row rest ih =>
    intro i
    simp only [runBatchAux, List.enumFrom, List.filterMap_cons]
    cases h : processRow store profile promptTmpl compact highlights apiKey
        (refine i) jsonParse (calls i) row with
    | none => simp [h, ih (i + 1)]
    | some d => simp [h, ih (i + 1)]

/-- C2: the batch driver applies the per-row step to each row in input order;
a row whose draft production raises is skipped and processing continues, so
the output is exactly the successful draft rows in input order with failed
rows absent; in particular, for three companies where the second raises
during generation, the output is the drafts for companies one and three, in
that relative order. -/
theorem claim_C2 (store : Str → Option Str) (profile : CandidateProfile)
    (promptTmpl compact highlights : Str) (apiKey : Option Str)
    (refine : Nat → RefineOutcome) (jsonParse : Str → Option Dict)
    (calls : Nat → Option Str) :
    (∀ rows : List Dict,
      runBatch store profile promptTmpl compact highlights apiKey refine jsonParse calls rows
        = rows.enum.filterMap
            (fun p => processRow store profile promptTmpl compact highlights apiKey
              (refine p.1) jsonParse (calls p.1) p.2))
    ∧ runBatch (fun _ => none) {} [] [] [] none (fun _ => .raised)
        (fun s => if s = ("J").toList
          then some [(("subject").toList, ("s").toList), (("body").toList, ("b").toList)]
          else none)
        (fun i => if i = 1 then none else some (("J").toList))
        [[(("company_name").toList, ("one").toList)],
         [(("company_name").toList, ("two").toList)],
         [(("company_name").toList, ("three").toList)]]
      = [[(("company_name").toList, ("one").toList), (("subject").toList, ("s").toList),
          (("body").toList, ("b").toList)],
         [(("company_name").toList, ("three").toList), (("subject").toList, ("s").toList),
          (("body").toList, ("b").toList)]] := by
  constructor
  · intro rows
    rw [List.enum_eq_enumFrom]
    exact runBatchAux_eq_filterMap store profile promptTmpl compact highlights apiKey
      refine jsonParse calls rows 0
  · decide

theorem fallbackSubject_ne_nil (profile : CandidateProfile) (row : Dict) :
    fallbackSubject profile row ≠ [] := by
  unfold fallbackSubject
  intro h
  rcases List.append_eq_nil.mp h with ⟨h2, -⟩
  rcases List.append_eq_nil.mp h2 with ⟨h3, -⟩
  rcases List.append_eq_nil.mp h3 with ⟨-, h4⟩
  exact absurd h4 (by decide)

theorem templateDraft_subject (tier ttext : Str) (row : Dict) (profile : CandidateProfile)
    (apiKey : Option Str) (ro : RefineOutcome) :
    (templateDraft tier ttext row profile apiKey ro).subject
      = (if (_extract_subject_from_body (fill_template ttext row profile (some []))).1 = []
         then fallbackSubject profile row
         else (_extract_subject_from_body (fill_template ttext row profile (some []))).1) := by
  simp only [templateDraft]

theorem isSuffixOf_self_append (x y : Str) : y.isSuffixOf (x ++ y) = true := by
  show (y.reverse).isPrefixOf ((x ++ y).reverse) = true
  rw [List.reverse_append]
  exact isPrefixOf_self_append y.reverse x.reverse

/-- C4 (amended): every template-mode DraftRecord has a non-empty subject;
when extraction yields an empty subject, the synthesized fallback subject is
used, and it starts with the candidate's name (or the literal `Candidate`
when the name is empty) and ends with the row's `company_name` value (or the
literal `Company` only when that key is missing; a present-but-empty name
contributes the empty string).  Generation-mode subjects are copied from the
parsed response and may be empty (see the counterexample). -/
theorem claim_C4_amended (tier ttext : Str) (row : Dict) (profile : CandidateProfile)
    (apiKey : Option Str) (ro : RefineOutcome) :
    (templateDraft tier ttext row profile apiKey ro).subject ≠ []
    ∧ ((_extract_subject_from_body (fill_template ttext row profile (some []))).1 = [] →
        (templateDraft tier ttext row profile apiKey ro).subject = fallbackSubject profile row)
    ∧ (if profile.name = [] then ("Candidate").toList else profile.name).isPrefixOf
        (fallbackSubject profile row) = true
    ∧ ((dget row (("company_name").toList)).getD (("Company").toList)).isSuffixOf
        (fallbackSubject profile row) = true := by
  refine ⟨?_, ?_, ?_, ?_⟩
  · rw [templateDraft_subject]
    by_cases hx : (_extract_subject_from_body (fill_template ttext row profile (some []))).1 = []
    · rw [if_pos hx]
      exact fallbackSubject_ne_nil profile row
    · rw [if_neg hx]
      exact hx
  · intro hx
    rw [templateDraft_subject, if_pos hx]
  · unfold fallbackSubject
    simp only [List.append_assoc]
    exact isPrefixOf_self_append _ _
  · unfold fallbackSubject
    exact isSuffixOf_self_append _ _

/-- Witness for C4 (amended): a template whose filled text has no subject
line gets the synthesized fallback subject. -/
theorem claim_C4_amended_witness :
    (templateDraft (("standard").toList) (("Hello body").toList) [] {} none .raised).subject
      = fallbackSubject {} [] :=
  (claim_C4_amended (("standard").toList) (("Hello body").toList) [] {} none .raised).2.1
    (by decide)

/-- Counterexample to C4 as stated: a generation-mode run whose parsed
response carries an empty subject emits a draft record with an empty subject
string. -/
theorem claim_C4_counterexample :
    Option.bind
      (processRow (fun _ => none) {} [] [] [] none .raised
        (fun _ => some [(("subject").toList, []), (("body").toList, ("x").toList)])
        (some (("J").toList)) [(("company_name").toList, ("one").toList)])
      (fun d => dget d (("subject").toList)) = some [] := by decide

theorem dget_dset_ne : ∀ (d : Dict) (k k' v : Str), k' ≠ k →
    dget (dset d k v) k' = dget d k' := by
  intro d
  induction d with
  | nil =>
    intro k k' v h
    simp only [dset, dget]
    rw [if_neg (fun hh => h hh.symm)]
  | cons p rest ih =>
    intro k k' v h
    obtain ⟨k0, w⟩ := p
    simp only [dset]
    by_cases h0 : k0 = k
    · rw [if_pos h0]
      have hne0 : ¬ k0 = k' := fun hh => h (hh.symm.trans h0)
      simp only [dget]
      rw [if_neg hne0, if_neg hne0]
    · rw [if_neg h0]
      simp only [dget]
      by_cases h1 : k0 = k'
      · rw [if_pos h1, if_pos h1]
      · rw [if_neg h1, if_neg h1]
        exact ih k k' v h

/-- C7 (amended): the emitted draft row is the input row with only `subject`
and `body` overwritten, so every other field — the tier included — passes
through from the row unchanged (the resolved tier is not written to the
output record); the generation-mode CompanyDraft carries the row's raw tier
value (empty when absent, unstripped), while only the template-mode
CompanyDraft carries the resolved tier. -/
theorem claim_C7_amended (store : Str → Option Str) (profile : CandidateProfile)
    (promptTmpl compact highlights : Str) (apiKey : Option Str) (ro : RefineOutcome)
    (jsonParse : Str → Option Dict) (callResult : Option Str) (row d : Dict)
    (h : processRow store profile promptTmpl compact highlights apiKey ro jsonParse
          callResult row = some d) :
    (∀ k : Str, k ≠ ("subject").toList → k ≠ ("body").toList → dget d k = dget row k)
    ∧ (∀ dr : CompanyDraft,
        _draft_for_company jsonParse callResult promptTmpl compact highlights row = some dr →
        dr.tier = truthyOr (dget row (("tier").toList)) [])
    ∧ (load_template store (resolveTier row) ≠ [] →
        (templateDraft (resolveTier row) (load_template store (resolveTier row)) row profile
          apiKey ro).tier = resolveTier row) := by
  refine ⟨?_, ?_, fun _ => rfl⟩
  · intro k hks hkb
    have hd : ∃ s b, d = dset (dset row (("subject").toList) s) (("body").toList) b := by
      revert h
      unfold processRow
      by_cases ht : load_template store (resolveTier row) = []
      · rw [if_pos ht]
        intro h
        cases hdr : _draft_for_company jsonParse callResult promptTmpl compact highlights row with
        | none =>
          rw [hdr] at h
          simp at h
        | some dr =>
          rw [hdr] at h
          dsimp only at h
          exact ⟨dr.subject, dr.body, (Option.some.inj h).symm⟩
      · rw [if_neg ht]
        intro h
        exact ⟨_, _, (Option.some.inj h).symm⟩
    obtain ⟨s, b, hd⟩ := hd
    subst hd
    rw [dget_dset_ne _ _ _ _ hkb, dget_dset_ne _ _ _ _ hks]
  · intro dr hdr
    revert hdr
    unfold _draft_for_company
    cases callResult with
    | none =>
      intro h2
      simp at h2
    | some raw =>
      dsimp only
      cases hjp : jsonParse (_strip_json_block raw) with
      | none =>
        intro h2
        simp at h2
      | some data =>
        intro h2
        rw [← Option.some.inj h2]

/-- Witness for C7 (amended): the tier field of a concrete emitted row equals
the raw tier field of the input row. -/
theorem claim_C7_amended_witness :
    dget [(("tier").toList, ("x").toList), (("subject").toList, ("s").toList),
          (("body").toList, ("b").toList)] (("tier").toList)
      = dget [(("tier").toList, ("x").toList)] (("tier").toList) :=
  (claim_C7_amended (fun _ => none) {} [] [] [] none .raised
    (fun _ => some [(("subject").toList, ("s").toList), (("body").toList, ("b").toList)])
    (some (("J").toList)) [(("tier").toList, ("x").toList)]
    [(("tier").toList, ("x").toList), (("subject").toList, ("s").toList),
     (("body").toList, ("b").toList)]
    (by decide)).1 (("tier").toList) (by decide) (by decide)

/-- Counterexample to C7 as stated: for a row whose tier field is the empty
string, the resolved tier is `standard`, yet the emitted draft record still
carries the empty tier (the resolved tier is attached only to the
intermediate CompanyDraft of the template path, and the emitted record is the
row merged with subject and body only). -/
theorem claim_C7_counterexample :
    resolveTier [(("tier").toList, []), (("company_name").toList, ("a").toList)]
      = ("standard").toList
    ∧ Option.bind
        (processRow
          (fun k => if k = ("standard").toList then some (("Subject: T\nB").toList) else none)
          {} [] [] [] none .raised (fun _ => none) none
          [(("tier").toList, []), (("company_name").toList, ("a").toList)])
        (fun d => dget d (("tier").toList)) = some [] := by
  constructor
  · decide
  · decide
